import Mathlib

/-!
Shallow embedding of `asset_graph_subset.py` (class `AssetGraphSubset`):
the subset data structure, its set algebra (`_oper`), queries
(`asset_keys`, `num_partitions_and_non_partitioned_assets`,
`get_partitions_subset`, `__contains__`), serialization
(`to_storage_dict`, `can_deserialize`, `from_storage_dict`) and the
construction helper `from_asset_partition_set`.

Modelling choices:
* `AssetKey` and partition keys are `Nat` (the string encoding
  `to_user_string`/`from_user_string` is a bijection, modelled as the
  identity).
* A Python `dict` is a `Finmap`; a Python `set` is a `Finset`; a
  `PartitionsSubset` is a `Finset` of partition keys.
* Raising an exception is modelled by `Except DagsterError` (or by
  `Option` for constructors whose failure identity is irrelevant).
* Iteration over a Python `set`/`dict` is modelled by iterating over the
  `(· ≤ ·)`-sorted list of its elements/keys; every claim proved below
  is insensitive to the enumeration order.
-/

deriving instance DecidableEq for Except

/-- Asset identifiers (`AssetKey`), modelled as naturals. -/
abbrev AssetKey := Nat

/-- Canonical ascending enumeration of a multiset of naturals, by
structurally-recursive insertion sort (well defined because sorting is
permutation-invariant). -/
def msort (m : Multiset Nat) : List Nat :=
  Quotient.liftOn m (fun l => l.insertionSort (· ≤ ·)) fun l1 l2 h =>
    List.eq_of_perm_of_sorted
      (((List.perm_insertionSort _ l1).trans h).trans
        (List.perm_insertionSort _ l2).symm)
      (List.sorted_insertionSort _ l1) (List.sorted_insertionSort _ l2)

theorem msort_coe_eq (m : Multiset Nat) : (msort m : Multiset Nat) = m :=
  Quotient.inductionOn m fun l => Quot.sound (List.perm_insertionSort _ l)

theorem mem_msort {a : Nat} {m : Multiset Nat} : a ∈ msort m ↔ a ∈ m := by
  rw [← Multiset.mem_coe, msort_coe_eq]

/-- Canonical ascending enumeration of a finite set of naturals; models
iteration over a Python `set` or over a `dict`'s keys. -/
def sortKeys (s : Finset Nat) : List Nat :=
  msort s.val

theorem mem_sortKeys {a : Nat} {s : Finset Nat} : a ∈ sortKeys s ↔ a ∈ s :=
  mem_msort

theorem sortKeys_nodup (s : Finset Nat) : (sortKeys s).Nodup := by
  have h : ((sortKeys s : List Nat) : Multiset Nat).Nodup := by
    rw [sortKeys, msort_coe_eq]; exact s.nodup
  exact h

theorem sortKeys_toFinset (s : Finset Nat) : (sortKeys s).toFinset = s := by
  apply Finset.ext
  intro a
  rw [List.mem_toFinset, mem_sortKeys]

/-- Partition keys, modelled as naturals. -/
abbrev PartitionKey := Nat

/-- A `PartitionsSubset` value: an order-irrelevant container of
partition keys, modelled as a finite set. -/
abbrev PartitionsSubset := Finset PartitionKey

/-- The exception taxonomy relevant to the claims: `check.invariant`
failure, `check.failed` on the graph-aware accessor, a Python
`KeyError`, and `DagsterDefinitionChangedDeserializationError`. -/
inductive DagsterError
  | invariantViolation
  | invalidUsage
  | keyNotFound
  | definitionChanged
deriving DecidableEq

/-- Modelled from the spec: a partitioning definition, an external
collaborator referenced only through its interface
(`get_serializable_unique_identifier`, `__class__.__name__`,
`empty_subset`, `can_deserialize_subset`, `deserialize_subset`).
The unique identifier and the class name are modelled as naturals. -/
structure PartitionsDef where
  unique_id : Nat
  class_name : Nat
deriving DecidableEq

/-- Modelled from the spec: the empty subset of a partitioning
definition (`PartitionsDefinition.empty_subset`). -/
def PartitionsDef.empty_subset (_d : PartitionsDef) : PartitionsSubset := ∅

/-- Modelled from the spec: `PartitionsSubset.serialize`, a faithful
stable encoding of the subset, modelled as its sorted list of keys. -/
def serializeSubset (v : PartitionsSubset) : List PartitionKey :=
  sortKeys v

/-- Modelled from the spec: `PartitionsDefinition.deserialize_subset`,
the inverse of `serializeSubset`. -/
def PartitionsDef.deserialize_subset (_d : PartitionsDef)
    (payload : List PartitionKey) : PartitionsSubset :=
  payload.toFinset

/-- Modelled from the spec: the partitioning definition's own
compatibility check `can_deserialize_subset(payload, storedUniqueId,
storedTag)`: the stored unique identifier and implementation tag, when
present, must match the current definition's. -/
def PartitionsDef.can_deserialize_subset (d : PartitionsDef)
    (_payload : List PartitionKey) (uid : Option Nat) (cls : Option Nat) : Bool :=
  (uid.all fun u => u == d.unique_id) && (cls.all fun c => c == d.class_name)

/-- Modelled from the spec: the asset graph, an external collaborator:
its full identifier universe (`all_asset_keys`) and the mapping from
asset identifier to partitioning definition (`get_partitions_def`).
Only known identifiers carry a partitioning definition. -/
structure AssetGraph where
  all_asset_keys : Finset AssetKey
  partitions_defs : Finmap (fun _ : AssetKey => PartitionsDef)
  defs_known : partitions_defs.keys ⊆ all_asset_keys

/-- Modelled from the spec: `AssetGraph.get_partitions_def`: the asset's
partitioning definition, or `none` when the asset is unknown or
unpartitioned. -/
def AssetGraph.get_partitions_def (g : AssetGraph) (k : AssetKey) :
    Option PartitionsDef :=
  g.partitions_defs.lookup k

/-- Modelled from the spec: the dynamic-partitions store collaborator;
the modelled `unique_id` does not depend on it, so it carries no data. -/
abbrev DynamicPartitionsStore := Unit

/-- The core value: `partitions_subsets_by_asset_key` maps partitioned
asset keys to their partition subsets; `non_partitioned_asset_keys` is
the set of wholly-included unpartitioned assets. Python `==` compares
both fields, which is structure equality here. -/
structure AssetGraphSubset where
  partitions_subsets_by_asset_key : Finmap (fun _ : AssetKey => PartitionsSubset)
  non_partitioned_asset_keys : Finset AssetKey
deriving DecidableEq

/-- `AssetGraphSubset.asset_keys`: the effective asset keys — keys of
the partitioned mapping whose subset is non-empty (`len(subset) > 0`),
together with the non-partitioned keys. -/
def AssetGraphSubset.asset_keys (s : AssetGraphSubset) : Finset AssetKey :=
  (s.partitions_subsets_by_asset_key.keys.filter
      (fun k => 0 < ((s.partitions_subsets_by_asset_key.lookup k).getD ∅).card))
    ∪ s.non_partitioned_asset_keys

/-- `AssetGraphSubset.num_partitions_and_non_partitioned_assets`: one
per non-partitioned key plus the cardinality of every stored partition
subset (summed over the mapping's keys). -/
def AssetGraphSubset.num_partitions_and_non_partitioned_assets
    (s : AssetGraphSubset) : Nat :=
  s.non_partitioned_asset_keys.card +
    Finset.sum s.partitions_subsets_by_asset_key.keys
      (fun k => ((s.partitions_subsets_by_asset_key.lookup k).getD ∅).card)

/-- `AssetGraphSubset.get_partitions_subset`: with a graph, `check.failed`
(`invalidUsage`) on an unpartitioned asset, else the stored subset with
the definition's empty subset as default; without a graph, a plain
dictionary lookup which raises `KeyError` (`keyNotFound`) when absent. -/
def AssetGraphSubset.get_partitions_subset (s : AssetGraphSubset)
    (k : AssetKey) (g : Option AssetGraph) :
    Except DagsterError PartitionsSubset :=
  match g with
  | some graph =>
    match graph.get_partitions_def k with
    | none => .error .invalidUsage
    | some d => .ok ((s.partitions_subsets_by_asset_key.lookup k).getD d.empty_subset)
  | none =>
    match s.partitions_subsets_by_asset_key.lookup k with
    | some v => .ok v
    | none => .error .keyNotFound

/-- `__contains__` on a bare `AssetKey`: a non-empty recorded subset, or
non-partitioned membership. -/
def AssetGraphSubset.contains_asset_key (s : AssetGraphSubset) (k : AssetKey) : Bool :=
  (match s.partitions_subsets_by_asset_key.lookup k with
    | some ps => 0 < ps.card
    | none => false)
  || decide (k ∈ s.non_partitioned_asset_keys)

/-- `__contains__` on an `AssetKeyPartitionKey` pair: with a `none`
partition key, non-partitioned membership; otherwise membership of the
partition key in the recorded subset. -/
def AssetGraphSubset.contains_asset_partition (s : AssetGraphSubset)
    (k : AssetKey) (p : Option PartitionKey) : Bool :=
  match p with
  | none => decide (k ∈ s.non_partitioned_asset_keys)
  | some pk =>
    match s.partitions_subsets_by_asset_key.lookup k with
    | some ps => decide (pk ∈ ps)
    | none => false

/-- The three operators passed to `_oper` (`operator.or_`,
`operator.sub`, `operator.and_`). -/
inductive Oper
  | or
  | sub
  | and
deriving DecidableEq

/-- Application of an operator to two finite sets (Python `|`, `-`, `&`
on `set`s and on the modelled `PartitionsSubset`s). -/
def Oper.app (o : Oper) (a b : Finset Nat) : Finset Nat :=
  match o with
  | .or => a ∪ b
  | .sub => a \ b
  | .and => a ∩ b

/-- The body of `_oper`'s loop for one key of `other.asset_keys`:
the two `check.invariant` assertions, the non-partitioned branch, and
the partitioned branch with its union/intersection special cases for an
absent left subset. `self` and `other` are the loop-invariant operands;
`acc` is the result being built. -/
def AssetGraphSubset.operStep (self other : AssetGraphSubset) (o : Oper)
    (acc : AssetGraphSubset) (k : AssetKey) :
    Except DagsterError AssetGraphSubset :=
  if k ∈ other.non_partitioned_asset_keys then
    if (self.partitions_subsets_by_asset_key.lookup k).isSome then
      .error .invariantViolation
    else
      .ok ⟨acc.partitions_subsets_by_asset_key,
        o.app acc.non_partitioned_asset_keys {k}⟩
  else
    if k ∈ self.non_partitioned_asset_keys then
      .error .invariantViolation
    else
      match other.partitions_subsets_by_asset_key.lookup k with
      | none => .error .keyNotFound
      | some os =>
        match self.partitions_subsets_by_asset_key.lookup k with
        | some ss =>
          .ok ⟨acc.partitions_subsets_by_asset_key.insert k (o.app ss os),
            acc.non_partitioned_asset_keys⟩
        | none =>
          match o with
          | .or =>
            .ok ⟨acc.partitions_subsets_by_asset_key.insert k os,
              acc.non_partitioned_asset_keys⟩
          | _ => .ok acc

/-- `AssetGraphSubset._oper`: starting from a copy of `self`, fold the
per-key step over `other.asset_keys`. -/
def AssetGraphSubset.oper (self other : AssetGraphSubset) (o : Oper) :
    Except DagsterError AssetGraphSubset :=
  (sortKeys other.asset_keys).foldlM (self.operStep other o) self

/-- `__or__`. -/
def AssetGraphSubset.union (self other : AssetGraphSubset) :
    Except DagsterError AssetGraphSubset :=
  self.oper other .or

/-- `__sub__`. -/
def AssetGraphSubset.diff (self other : AssetGraphSubset) :
    Except DagsterError AssetGraphSubset :=
  self.oper other .sub

/-- `__and__`. -/
def AssetGraphSubset.inter (self other : AssetGraphSubset) :
    Except DagsterError AssetGraphSubset :=
  self.oper other .and

/-- The serialized document produced by `to_storage_dict` (§6 shape):
serialized subsets, partitioning-definition unique identifiers,
partitioning-definition class names, and the non-partitioned key list. -/
structure StorageDict where
  partitions_subsets_by_asset_key : Finmap (fun _ : AssetKey => List PartitionKey)
  serializable_partitions_def_ids_by_asset_key : Finmap (fun _ : AssetKey => Nat)
  partitions_def_class_names_by_asset_key : Finmap (fun _ : AssetKey => Nat)
  non_partitioned_asset_keys : List AssetKey
deriving DecidableEq

/-- Build a `Finmap` with the given keys, each mapped through `f`. -/
def finmapOfKeys {β : Type} (ks : List AssetKey) (f : AssetKey → β) :
    Finmap (fun _ : AssetKey => β) :=
  ks.foldl (fun m a => m.insert a (f a)) ∅

/-- The document emitted by `to_storage_dict`: the four fields of the
serialized shape, built from the subset and the graph's partitioning
definitions. -/
def toStorageDoc (s : AssetGraphSubset) (g : AssetGraph) : StorageDict where
  partitions_subsets_by_asset_key :=
    finmapOfKeys (sortKeys s.partitions_subsets_by_asset_key.keys)
      (fun k => serializeSubset ((s.partitions_subsets_by_asset_key.lookup k).getD ∅))
  serializable_partitions_def_ids_by_asset_key :=
    finmapOfKeys (sortKeys s.partitions_subsets_by_asset_key.keys)
      (fun k => ((g.get_partitions_def k).getD ⟨0, 0⟩).unique_id)
  partitions_def_class_names_by_asset_key :=
    finmapOfKeys (sortKeys s.partitions_subsets_by_asset_key.keys)
      (fun k => ((g.get_partitions_def k).getD ⟨0, 0⟩).class_name)
  non_partitioned_asset_keys := sortKeys s.non_partitioned_asset_keys

/-- `AssetGraphSubset.to_storage_dict`: emits the document;
`check.not_none(asset_graph.get_partitions_def(key))` raises when a
partitioned key has no partitioning definition, modelled as `none`. -/
def AssetGraphSubset.to_storage_dict (s : AssetGraphSubset)
    (_dynamic_partitions_store : DynamicPartitionsStore) (g : AssetGraph) :
    Option StorageDict :=
  if ∀ k ∈ s.partitions_subsets_by_asset_key.keys, (g.get_partitions_def k).isSome
  then some (toStorageDoc s g)
  else none

/-- `AssetGraphSubset.can_deserialize`: every stored partitioned entry
must resolve to a partitioning definition in the current graph whose
own compatibility check accepts the stored payload. -/
def AssetGraphSubset.can_deserialize (doc : StorageDict) (g : AssetGraph) : Bool :=
  (sortKeys doc.partitions_subsets_by_asset_key.keys).all fun k =>
    match doc.partitions_subsets_by_asset_key.lookup k, g.get_partitions_def k with
    | some payload, some d =>
      d.can_deserialize_subset payload
        (doc.serializable_partitions_def_ids_by_asset_key.lookup k)
        (doc.partitions_def_class_names_by_asset_key.lookup k)
    | _, _ => false

/-- The per-entry reconstruction shared by `from_storage_dict`'s loop:
`some` of the deserialized subset when the key is known to the graph,
still partitioned, and passes the compatibility check; `none` when any
of the three drift checks fails (the three `DefinitionChanged` reasons
of the source differ only in their message). -/
def deserEntry (doc : StorageDict) (g : AssetGraph) (k : AssetKey) :
    Option PartitionsSubset :=
  (doc.partitions_subsets_by_asset_key.lookup k).bind fun payload =>
    if k ∈ g.all_asset_keys then
      (g.get_partitions_def k).bind fun d =>
        if d.can_deserialize_subset payload
            (doc.serializable_partitions_def_ids_by_asset_key.lookup k)
            (doc.partitions_def_class_names_by_asset_key.lookup k) then
          some (d.deserialize_subset payload)
        else none
    else none

/-- One iteration of `from_storage_dict`'s loop: keep the reconstructed
entry, or on drift either skip it (`allow_partial`) or raise
`DefinitionChanged`. -/
def fromStorageStep (doc : StorageDict) (g : AssetGraph) ( allow_partial : Bool)
    (m : Finmap (fun _ : AssetKey => PartitionsSubset)) (k : AssetKey) :
    Except DagsterError (Finmap (fun _ : AssetKey => PartitionsSubset)) :=
  match deserEntry doc g k with
  | some v => .ok (m.insert k v)
  | none => if allow_partial then .ok m else .error .definitionChanged

/-- The pure form of one loop iteration in skip mode. -/
def fromStorageUpdate (doc : StorageDict) (g : AssetGraph)
    (m : Finmap (fun _ : AssetKey => PartitionsSubset)) (k : AssetKey) :
    Finmap (fun _ : AssetKey => PartitionsSubset) :=
  match deserEntry doc g k with
  | some v => m.insert k v
  | none => m

/-- `AssetGraphSubset.from_storage_dict`: reconstruct each stored
partitioned entry, raising `DefinitionChanged` on drift when
`allow_partial` is false and skipping the entry when it is true; the
stored non-partitioned keys are intersected with the graph's universe
unconditionally. -/
def AssetGraphSubset.from_storage_dict (doc : StorageDict) (g : AssetGraph)
    ( allow_partial : Bool) : Except DagsterError AssetGraphSubset :=
  match (sortKeys doc.partitions_subsets_by_asset_key.keys).foldlM
      (fromStorageStep doc g allow_partial) ∅ with
  | .ok m =>
    .ok ⟨m, doc.non_partitioned_asset_keys.toFinset ∩ g.all_asset_keys⟩
  | .error e => .error e

/-- `AssetGraphSubset.from_asset_partition_set`: group the raw
`(assetKey, optional partitionKey)` pairs; every asset seen with a
non-null partition key gets `empty_subset().with_partition_keys(...)`
(its collected keys); every asset seen with a null partition key
becomes a non-partitioned member. Dereferencing a missing partitioning
definition (the `cast` in the source would crash) is modelled as `none`. -/
def pairsPartitionedKeys (pairs : Finset (AssetKey × Option PartitionKey)) :
    Finset AssetKey :=
  (pairs.filter fun q => q.2.isSome).image Prod.fst

def AssetGraphSubset.from_asset_partition_set
    (pairs : Finset (AssetKey × Option PartitionKey)) (g : AssetGraph) :
    Option AssetGraphSubset :=
  if ∀ a ∈ pairsPartitionedKeys pairs, (g.get_partitions_def a).isSome then
    some
      ⟨finmapOfKeys (sortKeys (pairsPartitionedKeys pairs))
          (fun a =>
            (pairs.filter fun q => q.1 = a ∧ q.2.isSome).image fun q => q.2.getD 0),
        (pairs.filter fun q => q.2 = none).image Prod.fst⟩
  else none

/-! ### Generic lemmas about `List.foldlM` in the `Except` monad -/

theorem exceptFoldlM_nil {E β α : Type} (f : β → α → Except E β) (b : β) :
    List.foldlM f b [] = .ok b :=
  rfl

theorem exceptFoldlM_cons {E β α : Type} (f : β → α → Except E β) (b : β)
    (a : α) (l : List α) :
    List.foldlM f b (a :: l) =
      match f b a with
      | .ok b' => List.foldlM f b' l
      | .error e => .error e := by
  rw [List.foldlM_cons]
  cases f b a <;> rfl

theorem exceptFoldlM_append {E β α : Type} (f : β → α → Except E β)
    (l1 l2 : List α) (b : β) :
    List.foldlM f b (l1 ++ l2) =
      match List.foldlM f b l1 with
      | .ok m => List.foldlM f m l2
      | .error e => .error e := by
  induction l1 generalizing b with
  | nil => rfl
  | cons a t ih =>
    simp only [List.cons_append]
    rw [exceptFoldlM_cons, exceptFoldlM_cons]
    cases f b a with
    | error e => rfl
    | ok b' => exact ih b'

theorem exceptFoldlM_append_ok {E β α : Type} {f : β → α → Except E β}
    {l1 : List α} {b m : β} (h : List.foldlM f b l1 = .ok m) (l2 : List α) :
    List.foldlM f b (l1 ++ l2) = List.foldlM f m l2 := by
  rw [exceptFoldlM_append, h]

theorem exceptFoldlM_append_error {E β α : Type} {f : β → α → Except E β}
    {l1 : List α} {b : β} {e : E} (h : List.foldlM f b l1 = .error e) (l2 : List α) :
    List.foldlM f b (l1 ++ l2) = .error e := by
  rw [exceptFoldlM_append, h]

theorem exceptFoldlM_cons_ok {E β α : Type} {f : β → α → Except E β}
    {b b' : β} {a : α} (h : f b a = .ok b') (l : List α) :
    List.foldlM f b (a :: l) = List.foldlM f b' l := by
  rw [exceptFoldlM_cons, h]

theorem exceptFoldlM_cons_error {E β α : Type} {f : β → α → Except E β}
    {b : β} {a : α} {e : E} (h : f b a = .error e) (l : List α) :
    List.foldlM f b (a :: l) = .error e := by
  rw [exceptFoldlM_cons, h]

theorem exceptFoldlM_ok_of_pure {E β α : Type} (f : β → α → Except E β)
    (u : β → α → β) (l : List α) (h : ∀ b a, a ∈ l → f b a = .ok (u b a)) (b : β) :
    List.foldlM f b l = .ok (List.foldl u b l) := by
  induction l generalizing b with
  | nil => rfl
  | cons a t ih =>
    rw [exceptFoldlM_cons, h b a (List.mem_cons_self a t)]
    simp only [List.foldl_cons]
    exact ih (fun b' a' ha' => h b' a' (List.mem_cons_of_mem _ ha')) (u b a)

theorem exceptFoldlM_invariant {E β α : Type} (f : β → α → Except E β) (P : β → Prop)
    (l : List α) (h : ∀ b a r, a ∈ l → f b a = .ok r → P b → P r)
    (b r : β) (hok : List.foldlM f b l = .ok r) (hb : P b) : P r := by
  induction l generalizing b with
  | nil =>
    rw [exceptFoldlM_nil] at hok
    cases hok
    exact hb
  | cons a t ih =>
    rw [exceptFoldlM_cons] at hok
    cases hfa : f b a with
    | error e => rw [hfa] at hok; cases hok
    | ok b' =>
      rw [hfa] at hok
      exact ih (fun b2 a2 r2 ha2 => h b2 a2 r2 (List.mem_cons_of_mem _ ha2)) b' hok
        (h b a b' (List.mem_cons_self a t) hfa hb)

theorem exceptFoldlM_ok_of_no_err {E β α : Type} (f : β → α → Except E β)
    (bad : α → Prop) (l : List α)
    (hok : ∀ b a, a ∈ l → ¬ bad a → ∃ b', f b a = .ok b')
    (hall : ∀ a ∈ l, ¬ bad a) (b : β) : ∃ r, List.foldlM f b l = .ok r := by
  induction l generalizing b with
  | nil => exact ⟨b, rfl⟩
  | cons a t ih =>
    obtain ⟨b', hb'⟩ := hok b a (List.mem_cons_self a t) (hall a (List.mem_cons_self a t))
    rw [exceptFoldlM_cons, hb']
    exact ih (fun b2 a2 ha2 => hok b2 a2 (List.mem_cons_of_mem _ ha2))
      (fun a2 ha2 => hall a2 (List.mem_cons_of_mem _ ha2)) b'

theorem exceptFoldlM_error_of_mem {E β α : Type} (f : β → α → Except E β)
    (err : E) (bad : α → Prop) (l : List α) (a0 : α)
    (ha0 : a0 ∈ l) (hbad : bad a0)
    (herr : ∀ b a, a ∈ l → bad a → f b a = .error err)
    (hok : ∀ b a, a ∈ l → ¬ bad a → ∃ b', f b a = .ok b')
    (b : β) : List.foldlM f b l = .error err := by
  induction l generalizing b with
  | nil => cases ha0
  | cons a t ih =>
    rw [exceptFoldlM_cons]
    by_cases hEa : bad a
    · rw [herr b a (List.mem_cons_self a t) hEa]
    · obtain ⟨b', hb'⟩ := hok b a (List.mem_cons_self a t) hEa
      rw [hb']
      have ha0t : a0 ∈ t := by
        rcases List.mem_cons.mp ha0 with h | h
        · exact absurd (h ▸ hbad) hEa
        · exact h
      exact ih ha0t (fun b2 a2 ha2 => herr b2 a2 (List.mem_cons_of_mem _ ha2))
        (fun b2 a2 ha2 => hok b2 a2 (List.mem_cons_of_mem _ ha2)) b'

theorem nodupSplit {α : Type} {l : List α} {a : α} (ha : a ∈ l) (hn : l.Nodup) :
    ∃ s t, l = s ++ a :: t ∧ a ∉ s ∧ a ∉ t := by
  obtain ⟨s, t, rfl⟩ := List.append_of_mem ha
  have h1 := List.nodup_append.mp hn
  refine ⟨s, t, rfl, fun hs => ?_, (List.nodup_cons.mp h1.2.1).1⟩
  exact h1.2.2 hs (List.mem_cons_self a t)

/-! ### Lemmas about the embedded operations -/

theorem mem_asset_keys {s : AssetGraphSubset} {k : AssetKey} :
    k ∈ s.asset_keys ↔
      (∃ v, s.partitions_subsets_by_asset_key.lookup k = some v ∧ v.Nonempty) ∨
        k ∈ s.non_partitioned_asset_keys := by
  unfold AssetGraphSubset.asset_keys
  rw [Finset.mem_union, Finset.mem_filter, Finmap.mem_keys, Finmap.mem_iff]
  constructor
  · rintro (⟨⟨w, hw⟩, hpos⟩ | hnp)
    · rw [hw] at hpos
      exact Or.inl ⟨w, hw, Finset.card_pos.mp (by simpa using hpos)⟩
    · exact Or.inr hnp
  · rintro (⟨v, hv, hvne⟩ | hnp)
    · refine Or.inl ⟨⟨v, hv⟩, ?_⟩
      rw [hv]
      simpa using Finset.card_pos.mpr hvne
    · exact Or.inr hnp

theorem operStep_ok_map_lookup_ne {self other acc r : AssetGraphSubset} {o : Oper}
    {a X : AssetKey} (hne : a ≠ X)
    (h : AssetGraphSubset.operStep self other o acc a = .ok r) :
    r.partitions_subsets_by_asset_key.lookup X =
      acc.partitions_subsets_by_asset_key.lookup X := by
  unfold AssetGraphSubset.operStep at h
  split at h
  · split at h
    · exact Except.noConfusion h
    · injection h with h'
      subst h'
      rfl
  · split at h
    · exact Except.noConfusion h
    · split at h
      · exact Except.noConfusion h
      · split at h
        · injection h with h'
          subst h'
          exact Finmap.lookup_insert_of_ne _ (Ne.symm hne)
        · split at h
          · injection h with h'
            subst h'
            exact Finmap.lookup_insert_of_ne _ (Ne.symm hne)
          · injection h with h'
            subst h'
            rfl

theorem operStep_ok_at_absent {self other acc r : AssetGraphSubset} {o : Oper}
    {X : AssetKey} {os : PartitionsSubset}
    (hA : self.partitions_subsets_by_asset_key.lookup X = none)
    (hBnp : X ∉ other.non_partitioned_asset_keys)
    (hB : other.partitions_subsets_by_asset_key.lookup X = some os)
    (h : AssetGraphSubset.operStep self other o acc X = .ok r) :
    r.partitions_subsets_by_asset_key.lookup X =
      match o with
      | .or => some os
      | _ => acc.partitions_subsets_by_asset_key.lookup X := by
  unfold AssetGraphSubset.operStep at h
  rw [if_neg hBnp] at h
  split at h
  · exact Except.noConfusion h
  · rw [hB, hA] at h
    cases o with
    | or =>
      injection h with h'
      subst h'
      exact Finmap.lookup_insert _
    | sub =>
      injection h with h'
      subst h'
      rfl
    | and =>
      injection h with h'
      subst h'
      rfl

theorem operStep_ok_absent_not_or {self other acc r : AssetGraphSubset} {o : Oper}
    {X : AssetKey}
    (hA : self.partitions_subsets_by_asset_key.lookup X = none) (ho : o ≠ .or)
    (h : AssetGraphSubset.operStep self other o acc X = .ok r) :
    r.partitions_subsets_by_asset_key.lookup X =
      acc.partitions_subsets_by_asset_key.lookup X := by
  unfold AssetGraphSubset.operStep at h
  split at h
  · split at h
    · exact Except.noConfusion h
    · injection h with h'
      subst h'
      rfl
  · split at h
    · exact Except.noConfusion h
    · split at h
      · exact Except.noConfusion h
      · rw [hA] at h
        cases o with
        | or => exact absurd rfl ho
        | sub =>
          injection h with h'
          subst h'
          rfl
        | and =>
          injection h with h'
          subst h'
          rfl

theorem oper_lookup_of_absent_left (A B : AssetGraphSubset) (o : Oper) (X : AssetKey)
    (s : PartitionsSubset) (R : AssetGraphSubset)
    (hA : A.partitions_subsets_by_asset_key.lookup X = none)
    (hB : B.partitions_subsets_by_asset_key.lookup X = some s)
    (hne : s.Nonempty)
    (hBnp : X ∉ B.non_partitioned_asset_keys)
    (hok : A.oper B o = .ok R) :
    R.partitions_subsets_by_asset_key.lookup X =
      match o with
      | .or => some s
      | _ => none := by
  have hmem : X ∈ B.asset_keys := mem_asset_keys.mpr (Or.inl ⟨s, hB, hne⟩)
  have hmeml : X ∈ sortKeys B.asset_keys := mem_sortKeys.mpr hmem
  obtain ⟨l1, l2, hsplit, hX1, hX2⟩ := nodupSplit hmeml (sortKeys_nodup _)
  unfold AssetGraphSubset.oper at hok
  rw [hsplit] at hok
  cases h1 : List.foldlM (A.operStep B o) A l1 with
  | error e =>
    rw [exceptFoldlM_append_error h1] at hok
    exact Except.noConfusion hok
  | ok m1 =>
    rw [exceptFoldlM_append_ok h1] at hok
    cases h2 : A.operStep B o m1 X with
    | error e =>
      rw [exceptFoldlM_cons_error h2] at hok
      exact Except.noConfusion hok
    | ok m2 =>
      rw [exceptFoldlM_cons_ok h2] at hok
      have hm1 : m1.partitions_subsets_by_asset_key.lookup X = none :=
        exceptFoldlM_invariant (A.operStep B o)
          (fun m => m.partitions_subsets_by_asset_key.lookup X = none) l1
          (fun b a r ha hr hb => by
            have hax : a ≠ X := fun he => hX1 (he ▸ ha)
            show Finmap.lookup X r.partitions_subsets_by_asset_key = none
            rw [operStep_ok_map_lookup_ne hax hr]
            exact hb)
          A m1 h1 hA
      have hm2 := operStep_ok_at_absent hA hBnp hB h2
      have hR : R.partitions_subsets_by_asset_key.lookup X =
          m2.partitions_subsets_by_asset_key.lookup X :=
        exceptFoldlM_invariant (A.operStep B o)
          (fun m => m.partitions_subsets_by_asset_key.lookup X =
            m2.partitions_subsets_by_asset_key.lookup X) l2
          (fun b a r ha hr hb => by
            have hax : a ≠ X := fun he => hX2 (he ▸ ha)
            show Finmap.lookup X r.partitions_subsets_by_asset_key =
              Finmap.lookup X m2.partitions_subsets_by_asset_key
            rw [operStep_ok_map_lookup_ne hax hr]
            exact hb)
          m2 R hok rfl
      rw [hR, hm2]
      cases o with
      | or => rfl
      | sub => exact hm1
      | and => exact hm1

/-- The claim's cross-operand inconsistency condition (Invariant I1
across operands): some identifier is a non-partitioned member of one
operand and a partitioned member with a non-empty subset of the other. -/
def crossInconsistent (A B : AssetGraphSubset) : Prop :=
  ∃ k : AssetKey,
    (k ∈ A.non_partitioned_asset_keys ∧
      ∃ v, B.partitions_subsets_by_asset_key.lookup k = some v ∧ v.Nonempty) ∨
    (k ∈ B.non_partitioned_asset_keys ∧
      ∃ v, A.partitions_subsets_by_asset_key.lookup k = some v ∧ v.Nonempty)

/-- The condition under which `_oper`'s `check.invariant` actually fires
for a key `k`: `k` is a non-partitioned member of the right operand with
any entry (even an empty subset) in the left operand's partitioned
mapping, or an effectively partitioned member of the right operand (a
non-empty subset and not in the right operand's non-partitioned set)
that is a non-partitioned member of the left operand. -/
def operRaisesCond (A B : AssetGraphSubset) (k : AssetKey) : Prop :=
  (k ∈ B.non_partitioned_asset_keys ∧
    (A.partitions_subsets_by_asset_key.lookup k).isSome) ∨
  ((∃ v, B.partitions_subsets_by_asset_key.lookup k = some v ∧ v.Nonempty) ∧
    k ∉ B.non_partitioned_asset_keys ∧ k ∈ A.non_partitioned_asset_keys)

theorem cond_mem_asset_keys {A B : AssetGraphSubset} {k : AssetKey}
    (h : operRaisesCond A B k) : k ∈ B.asset_keys := by
  rcases h with ⟨hnp, _⟩ | ⟨hv, _, _⟩
  · exact mem_asset_keys.mpr (Or.inr hnp)
  · exact mem_asset_keys.mpr (Or.inl hv)

theorem operStep_error_of_cond {A B : AssetGraphSubset} {o : Oper} {a : AssetKey}
    (hc : operRaisesCond A B a) (b : AssetGraphSubset) :
    A.operStep B o b a = .error .invariantViolation := by
  unfold AssetGraphSubset.operStep
  rcases hc with ⟨hnp, hsome⟩ | ⟨_, hnotnp, hAnp⟩
  · rw [if_pos hnp, if_pos hsome]
  · rw [if_neg hnotnp, if_pos hAnp]

theorem operStep_ok_of_not_cond {A B : AssetGraphSubset} {o : Oper} {a : AssetKey}
    (ha : a ∈ B.asset_keys) (hnc : ¬ operRaisesCond A B a) (b : AssetGraphSubset) :
    ∃ r, A.operStep B o b a = .ok r := by
  unfold AssetGraphSubset.operStep
  by_cases hnp : a ∈ B.non_partitioned_asset_keys
  · have hnsome : ¬ (A.partitions_subsets_by_asset_key.lookup a).isSome := by
      intro hsome
      exact hnc (Or.inl ⟨hnp, hsome⟩)
    rw [if_pos hnp, if_neg hnsome]
    exact ⟨_, rfl⟩
  · rcases mem_asset_keys.mp ha with ⟨v, hv, hvne⟩ | h
    · have hAnp : a ∉ A.non_partitioned_asset_keys := by
        intro hmem
        exact hnc (Or.inr ⟨⟨v, hv, hvne⟩, hnp, hmem⟩)
      rw [if_neg hnp, if_neg hAnp, hv]
      cases hsl : A.partitions_subsets_by_asset_key.lookup a with
      | some ss => exact ⟨_, rfl⟩
      | none =>
        cases o with
        | or => exact ⟨_, rfl⟩
        | sub => exact ⟨_, rfl⟩
        | and => exact ⟨_, rfl⟩
    · exact absurd h hnp

/-- C5 (amended): `_oper` raises `InvariantViolation` exactly when some
key satisfies the code's condition `operRaisesCond`: membership (even
with an empty subset) in the left operand's partitioned mapping counts
for the right operand's non-partitioned keys, and a right-operand key
that is simultaneously in the right operand's own non-partitioned set is
handled by the non-partitioned branch only. -/
theorem oper_invariant_violation_iff (A B : AssetGraphSubset) (o : Oper) :
    A.oper B o = .error .invariantViolation ↔ ∃ k, operRaisesCond A B k := by
  constructor
  · intro herr
    by_contra hno
    push_neg at hno
    obtain ⟨r, hr⟩ := exceptFoldlM_ok_of_no_err (A.operStep B o) (operRaisesCond A B)
      (sortKeys B.asset_keys)
      (fun b a ha hna => operStep_ok_of_not_cond (mem_sortKeys.mp ha) hna b)
      (fun a _ => hno a) A
    unfold AssetGraphSubset.oper at herr
    rw [herr] at hr
    exact Except.noConfusion hr
  · rintro ⟨k, hk⟩
    have hkL : k ∈ sortKeys B.asset_keys := mem_sortKeys.mpr (cond_mem_asset_keys hk)
    unfold AssetGraphSubset.oper
    exact exceptFoldlM_error_of_mem (A.operStep B o) .invariantViolation
      (operRaisesCond A B) (sortKeys B.asset_keys) k hkL hk
      (fun b a _ hc => operStep_error_of_cond hc b)
      (fun b a ha hna => operStep_ok_of_not_cond (mem_sortKeys.mp ha) hna b) A

/-- C5 (counterexample): the operands `A = {X ↦ ∅}` (partitioned entry
with an empty subset) and `B = {X}` (non-partitioned) jointly satisfy
the claim's cross-operand disjointness, yet the combinator raises
`InvariantViolation`, because the code's assertion tests mere presence
in the left operand's partitioned mapping. -/
theorem oper_raises_despite_cross_disjointness :
    ¬ crossInconsistent ⟨finmapOfKeys [0] fun _ => ∅, ∅⟩ ⟨∅, {0}⟩ ∧
      AssetGraphSubset.oper ⟨finmapOfKeys [0] fun _ => ∅, ∅⟩ ⟨∅, {0}⟩ .or =
        .error .invariantViolation := by
  constructor
  · rintro ⟨k, ⟨hk, -⟩ | ⟨hk, v, hv, hvne⟩⟩
    · exact absurd hk (Finset.not_mem_empty k)
    · have hk0 : k = 0 := Finset.mem_singleton.mp hk
      subst hk0
      have hl : Finmap.lookup 0 (finmapOfKeys [0] fun _ => (∅ : PartitionsSubset)) =
          some ∅ := by decide
      rw [hl] at hv
      injection hv with hv'
      rw [← hv'] at hvne
      exact absurd hvne (by simp)
  · decide

/-- C1 (amended): if `A` has no entry for `X` in its partitioned
mapping, `B` has a non-empty subset for `X`, `X` is not a
non-partitioned member of `B`, and the union and intersection complete
without raising, then the union's entry for `X` is exactly `B`'s subset
and the intersection has no entry for `X`. -/
theorem union_identity_intersection_annihilation (A B : AssetGraphSubset)
    (X : AssetKey) (s : PartitionsSubset) (U I : AssetGraphSubset)
    (hA : A.partitions_subsets_by_asset_key.lookup X = none)
    (hB : B.partitions_subsets_by_asset_key.lookup X = some s)
    (hne : s.Nonempty)
    (hBnp : X ∉ B.non_partitioned_asset_keys)
    (hU : A.union B = .ok U)
    (hI : A.inter B = .ok I) :
    U.partitions_subsets_by_asset_key.lookup X = some s ∧
      I.partitions_subsets_by_asset_key.lookup X = none :=
  ⟨oper_lookup_of_absent_left A B .or X s U hA hB hne hBnp hU,
    oper_lookup_of_absent_left A B .and X s I hA hB hne hBnp hI⟩

theorem union_identity_intersection_annihilation_witness :
    Finmap.lookup 0 (finmapOfKeys [0] fun _ => ({5} : PartitionsSubset)) = some {5} ∧
      Finmap.lookup 0 (∅ : Finmap (fun _ : AssetKey => PartitionsSubset)) = none :=
  union_identity_intersection_annihilation ⟨∅, ∅⟩
    ⟨finmapOfKeys [0] fun _ => {5}, ∅⟩ 0 {5}
    ⟨finmapOfKeys [0] fun _ => {5}, ∅⟩ ⟨∅, ∅⟩
    (by decide) (by decide) (by decide) (by decide) (by decide) (by decide)

/-- C1 (counterexample): with `A = {X}` non-partitioned (so `A` has no
entry for `X` in its partitioned mapping) and `B = {X ↦ {5}}`, both
union and intersection raise `InvariantViolation` instead of producing
the claimed results. -/
theorem union_on_absent_left_can_raise :
    Finmap.lookup 0 ((⟨∅, {0}⟩ : AssetGraphSubset)).partitions_subsets_by_asset_key =
        none ∧
      Finset.Nonempty ({5} : PartitionsSubset) ∧
      AssetGraphSubset.union ⟨∅, {0}⟩ ⟨finmapOfKeys [0] fun _ => {5}, ∅⟩ =
        .error .invariantViolation ∧
      AssetGraphSubset.inter ⟨∅, {0}⟩ ⟨finmapOfKeys [0] fun _ => {5}, ∅⟩ =
        .error .invariantViolation := by
  decide

/-- C9 (amended): if `A` has no entry for `X` in its partitioned mapping
and the difference `A - B` completes without raising, its result has no
entry for `X`, whatever subset `B` stores for `X`. -/
theorem diff_noop_on_absent_left (A B : AssetGraphSubset) (X : AssetKey)
    (s : PartitionsSubset) (D : AssetGraphSubset)
    (hA : A.partitions_subsets_by_asset_key.lookup X = none)
    (hB : B.partitions_subsets_by_asset_key.lookup X = some s)
    (hne : s.Nonempty)
    (hD : A.diff B = .ok D) :
    D.partitions_subsets_by_asset_key.lookup X = none := by
  unfold AssetGraphSubset.diff AssetGraphSubset.oper at hD
  exact exceptFoldlM_invariant (A.operStep B .sub)
    (fun m => Finmap.lookup X m.partitions_subsets_by_asset_key = none)
    (sortKeys B.asset_keys)
    (fun b a r ha hr hb => by
      by_cases hax : a = X
      · subst hax
        show Finmap.lookup a r.partitions_subsets_by_asset_key = none
        rw [operStep_ok_absent_not_or hA (fun h => Oper.noConfusion h) hr]
        exact hb
      · show Finmap.lookup X r.partitions_subsets_by_asset_key = none
        rw [operStep_ok_map_lookup_ne hax hr]
        exact hb)
    A D hD hA

theorem diff_noop_on_absent_left_witness :
    Finmap.lookup 0 ((⟨∅, ∅⟩ : AssetGraphSubset)).partitions_subsets_by_asset_key =
      none :=
  diff_noop_on_absent_left ⟨∅, ∅⟩ ⟨finmapOfKeys [0] fun _ => {5}, ∅⟩ 0 {5} ⟨∅, ∅⟩
    (by decide) (by decide) (by decide) (by decide)

/-- C9 (counterexample): with `A = {X}` non-partitioned (no entry for
`X` in `A`'s partitioned mapping) and `B = {X ↦ {5}}`, the difference
raises `InvariantViolation` instead of returning a result. -/
theorem diff_on_absent_left_can_raise :
    Finmap.lookup 0 ((⟨∅, {0}⟩ : AssetGraphSubset)).partitions_subsets_by_asset_key =
        none ∧
      AssetGraphSubset.diff ⟨∅, {0}⟩ ⟨finmapOfKeys [0] fun _ => {5}, ∅⟩ =
        .error .invariantViolation := by
  decide

/-- C4 (code bug): self-intersection is not idempotent. For
`s = {0, 1}` (two non-partitioned keys, empty partitioned mapping) the
loop computes `(({0, 1} ∩ {0}) ∩ {1}) = ∅`, so `s & s` drops every
non-partitioned key instead of returning `s`. -/
theorem self_intersection_loses_non_partitioned_keys :
    AssetGraphSubset.inter ⟨∅, {0, 1}⟩ ⟨∅, {0, 1}⟩ = .ok ⟨∅, ∅⟩ ∧
      (AssetGraphSubset.mk ∅ {0, 1} ≠ ⟨∅, ∅⟩) := by
  decide

theorem lookup_foldl_insert {β : Type} (ks : List AssetKey) (f : AssetKey → β)
    (a : AssetKey) :
    ∀ m : Finmap (fun _ : AssetKey => β),
      Finmap.lookup a (ks.foldl (fun m k => m.insert k (f k)) m) =
        if a ∈ ks then some (f a) else Finmap.lookup a m := by
  induction ks with
  | nil => simp
  | cons k t ih =>
    intro m
    simp only [List.foldl_cons]
    rw [ih]
    by_cases hat : a ∈ t
    · simp [hat, List.mem_cons]
    · by_cases hak : a = k
      · subst hak
        simp [hat, Finmap.lookup_insert]
      · simp [hat, hak, Finmap.lookup_insert_of_ne _ hak]

theorem lookup_finmapOfKeys {β : Type} (ks : List AssetKey) (f : AssetKey → β)
    (a : AssetKey) :
    (finmapOfKeys ks f).lookup a = if a ∈ ks then some (f a) else none := by
  unfold finmapOfKeys
  rw [lookup_foldl_insert]
  simp

/-- C6: an entry mapping a key to an empty subset is observationally
equivalent to that key being absent: inserting an empty-subset entry
for a key `k` not already present leaves the effective asset key set,
the total count, and both membership tests unchanged. -/
theorem empty_entry_equivalent_to_absent (s : AssetGraphSubset) (k : AssetKey)
    (h : s.partitions_subsets_by_asset_key.lookup k = none) :
    (AssetGraphSubset.mk (s.partitions_subsets_by_asset_key.insert k ∅)
        s.non_partitioned_asset_keys).asset_keys = s.asset_keys ∧
    (AssetGraphSubset.mk (s.partitions_subsets_by_asset_key.insert k ∅)
          s.non_partitioned_asset_keys).num_partitions_and_non_partitioned_assets =
        s.num_partitions_and_non_partitioned_assets ∧
    (∀ a, (AssetGraphSubset.mk (s.partitions_subsets_by_asset_key.insert k ∅)
        s.non_partitioned_asset_keys).contains_asset_key a = s.contains_asset_key a) ∧
    (∀ a p, (AssetGraphSubset.mk (s.partitions_subsets_by_asset_key.insert k ∅)
        s.non_partitioned_asset_keys).contains_asset_partition a p =
      s.contains_asset_partition a p) := by
  have hknotmem : k ∉ s.partitions_subsets_by_asset_key := by
    rw [Finmap.mem_iff]
    rintro ⟨v, hv⟩
    rw [h] at hv
    exact Option.noConfusion hv
  refine ⟨?_, ?_, ?_, ?_⟩
  · apply Finset.ext
    intro a
    unfold AssetGraphSubset.asset_keys
    rw [Finset.mem_union, Finset.mem_union, Finset.mem_filter, Finset.mem_filter,
      Finmap.mem_keys, Finmap.mem_keys, Finmap.mem_insert]
    by_cases hak : a = k
    · subst hak
      rw [Finmap.lookup_insert, h]
      simp [hknotmem]
    · rw [Finmap.lookup_insert_of_ne _ hak]
      simp [hak]
  · unfold AssetGraphSubset.num_partitions_and_non_partitioned_assets
    have hkeys : (s.partitions_subsets_by_asset_key.insert k ∅).keys =
        insert k s.partitions_subsets_by_asset_key.keys := by
      apply Finset.ext
      intro a
      rw [Finmap.mem_keys, Finmap.mem_insert, Finset.mem_insert, Finmap.mem_keys]
    have hknotkeys : k ∉ s.partitions_subsets_by_asset_key.keys := by
      rw [Finmap.mem_keys]
      exact hknotmem
    rw [hkeys, Finset.sum_insert hknotkeys]
    simp only [Finmap.lookup_insert, Option.getD_some, Finset.card_empty]
    have hsum : Finset.sum s.partitions_subsets_by_asset_key.keys
        (fun a => ((Finmap.lookup a
            (s.partitions_subsets_by_asset_key.insert k ∅)).getD ∅).card) =
        Finset.sum s.partitions_subsets_by_asset_key.keys
          (fun a => ((Finmap.lookup a s.partitions_subsets_by_asset_key).getD ∅).card) := by
      apply Finset.sum_congr rfl
      intro a ha
      have hak : a ≠ k := fun he => hknotkeys (he ▸ ha)
      rw [Finmap.lookup_insert_of_ne _ hak]
    rw [hsum, Nat.zero_add]
  · intro a
    unfold AssetGraphSubset.contains_asset_key
    by_cases hak : a = k
    · subst hak
      rw [Finmap.lookup_insert, h]
      simp
    · rw [Finmap.lookup_insert_of_ne _ hak]
  · intro a p
    unfold AssetGraphSubset.contains_asset_partition
    cases p with
    | none => rfl
    | some pk =>
      by_cases hak : a = k
      · subst hak
        rw [Finmap.lookup_insert, h]
        simp
      · rw [Finmap.lookup_insert_of_ne _ hak]

theorem empty_entry_equivalent_to_absent_witness :
    (AssetGraphSubset.mk ((∅ : Finmap (fun _ : AssetKey => PartitionsSubset)).insert 0 ∅)
        {3}).asset_keys = (AssetGraphSubset.mk ∅ {3}).asset_keys ∧
    (AssetGraphSubset.mk ((∅ : Finmap (fun _ : AssetKey => PartitionsSubset)).insert 0 ∅)
          {3}).num_partitions_and_non_partitioned_assets =
        (AssetGraphSubset.mk ∅ {3}).num_partitions_and_non_partitioned_assets ∧
    (∀ a, (AssetGraphSubset.mk
        ((∅ : Finmap (fun _ : AssetKey => PartitionsSubset)).insert 0 ∅)
        {3}).contains_asset_key a = (AssetGraphSubset.mk ∅ {3}).contains_asset_key a) ∧
    (∀ a p, (AssetGraphSubset.mk
        ((∅ : Finmap (fun _ : AssetKey => PartitionsSubset)).insert 0 ∅)
        {3}).contains_asset_partition a p =
      (AssetGraphSubset.mk ∅ {3}).contains_asset_partition a p) :=
  empty_entry_equivalent_to_absent ⟨∅, {3}⟩ 0 (by decide)

/-- C7: the three-way contract of `get_partitions_subset`: with a graph
on an unpartitioned asset it raises `check.failed` (`InvalidUsage`);
with a graph on a partitioned asset with no recorded entry it returns
the empty subset; without a graph and no recorded entry it raises
`KeyError` (`KeyNotFound`); with a recorded entry it returns the stored
subset in all non-failing cases. -/
theorem get_partitions_subset_contract (s : AssetGraphSubset) (k : AssetKey)
    (g : AssetGraph) :
    (g.get_partitions_def k = none →
      s.get_partitions_subset k (some g) = .error .invalidUsage) ∧
    ((g.get_partitions_def k).isSome →
      s.partitions_subsets_by_asset_key.lookup k = none →
      s.get_partitions_subset k (some g) = .ok ∅) ∧
    (s.partitions_subsets_by_asset_key.lookup k = none →
      s.get_partitions_subset k none = .error .keyNotFound) ∧
    (∀ v, s.partitions_subsets_by_asset_key.lookup k = some v →
      ((g.get_partitions_def k).isSome →
        s.get_partitions_subset k (some g) = .ok v) ∧
      s.get_partitions_subset k none = .ok v) := by
  refine ⟨?_, ?_, ?_, ?_⟩
  · intro hd
    unfold AssetGraphSubset.get_partitions_subset
    dsimp only
    rw [hd]
  · intro hd hl
    obtain ⟨d, hd'⟩ := Option.isSome_iff_exists.mp hd
    unfold AssetGraphSubset.get_partitions_subset
    dsimp only
    rw [hd', hl]
    rfl
  · intro hl
    unfold AssetGraphSubset.get_partitions_subset
    rw [hl]
  · intro v hv
    constructor
    · intro hd
      obtain ⟨d, hd'⟩ := Option.isSome_iff_exists.mp hd
      unfold AssetGraphSubset.get_partitions_subset
      dsimp only
      rw [hd', hv]
      rfl
    · unfold AssetGraphSubset.get_partitions_subset
      rw [hv]

theorem get_partitions_subset_contract_witness :
    AssetGraphSubset.get_partitions_subset ⟨∅, ∅⟩ 0 (some ⟨∅, ∅, by decide⟩) =
        .error .invalidUsage ∧
      AssetGraphSubset.get_partitions_subset ⟨∅, ∅⟩ 0
          (some ⟨{0}, finmapOfKeys [0] fun _ => ⟨5, 7⟩, by decide⟩) = .ok ∅ ∧
      AssetGraphSubset.get_partitions_subset ⟨∅, ∅⟩ 0 none = .error .keyNotFound ∧
      AssetGraphSubset.get_partitions_subset ⟨finmapOfKeys [0] fun _ => {9}, ∅⟩ 0
          (some ⟨{0}, finmapOfKeys [0] fun _ => ⟨5, 7⟩, by decide⟩) = .ok {9} ∧
      AssetGraphSubset.get_partitions_subset ⟨finmapOfKeys [0] fun _ => {9}, ∅⟩ 0
          none = .ok {9} :=
  ⟨(get_partitions_subset_contract ⟨∅, ∅⟩ 0 ⟨∅, ∅, by decide⟩).1 (by decide),
    (get_partitions_subset_contract ⟨∅, ∅⟩ 0
        ⟨{0}, finmapOfKeys [0] fun _ => ⟨5, 7⟩, by decide⟩).2.1 (by decide) (by decide),
    (get_partitions_subset_contract ⟨∅, ∅⟩ 0 ⟨∅, ∅, by decide⟩).2.2.1 (by decide),
    ((get_partitions_subset_contract ⟨finmapOfKeys [0] fun _ => {9}, ∅⟩ 0
        ⟨{0}, finmapOfKeys [0] fun _ => ⟨5, 7⟩, by decide⟩).2.2.2 {9} (by decide)).1
      (by decide),
    ((get_partitions_subset_contract ⟨finmapOfKeys [0] fun _ => {9}, ∅⟩ 0
        ⟨{0}, finmapOfKeys [0] fun _ => ⟨5, 7⟩, by decide⟩).2.2.2 {9} (by decide)).2⟩

/-- C10: `from_asset_partition_set` on a pair set containing both
`(A, some pk)` and `(A, none)` produces a value with `A` simultaneously
a non-partitioned member and a partitioned key with a non-empty subset,
i.e. a value violating Invariant I1's disjointness. -/
theorem from_asset_partition_set_can_violate_disjointness
    (pairs : Finset (AssetKey × Option PartitionKey)) (g : AssetGraph)
    (A : AssetKey) (pk : PartitionKey) (S : AssetGraphSubset)
    (h1 : (A, some pk) ∈ pairs)
    (h2 : (A, (none : Option PartitionKey)) ∈ pairs)
    (hS : AssetGraphSubset.from_asset_partition_set pairs g = some S) :
    A ∈ S.non_partitioned_asset_keys ∧
      ∃ v, S.partitions_subsets_by_asset_key.lookup A = some v ∧ v.Nonempty := by
  unfold AssetGraphSubset.from_asset_partition_set at hS
  split at hS
  · injection hS with hS'
    subst hS'
    constructor
    · exact Finset.mem_image.mpr ⟨(A, none), Finset.mem_filter.mpr ⟨h2, rfl⟩, rfl⟩
    · have hApk : A ∈ pairsPartitionedKeys pairs :=
        Finset.mem_image.mpr ⟨(A, some pk), Finset.mem_filter.mpr ⟨h1, rfl⟩, rfl⟩
      refine ⟨(pairs.filter fun q => q.1 = A ∧ q.2.isSome).image fun q => q.2.getD 0,
        ?_, ?_⟩
      · rw [lookup_finmapOfKeys, if_pos (mem_sortKeys.mpr hApk)]
      · exact ⟨pk, Finset.mem_image.mpr
          ⟨(A, some pk), Finset.mem_filter.mpr ⟨h1, ⟨rfl, rfl⟩⟩, rfl⟩⟩
  · exact Option.noConfusion hS

theorem from_asset_partition_set_can_violate_disjointness_witness :
    0 ∈ (AssetGraphSubset.mk (finmapOfKeys [0] fun _ => {4})
        {0}).non_partitioned_asset_keys ∧
      ∃ v, Finmap.lookup 0 (AssetGraphSubset.mk (finmapOfKeys [0] fun _ => {4})
          {0}).partitions_subsets_by_asset_key = some v ∧ v.Nonempty :=
  from_asset_partition_set_can_violate_disjointness {(0, some 4), (0, none)}
    ⟨{0}, finmapOfKeys [0] fun _ => ⟨5, 7⟩, by decide⟩ 0 4
    ⟨finmapOfKeys [0] fun _ => {4}, {0}⟩
    (by decide) (by decide) (by decide)

theorem fromStorageStep_ok_true (doc : StorageDict) (g : AssetGraph)
    (m : Finmap (fun _ : AssetKey => PartitionsSubset)) (k : AssetKey) :
    fromStorageStep doc g true m k = .ok (fromStorageUpdate doc g m k) := by
  unfold fromStorageStep fromStorageUpdate
  cases deserEntry doc g k <;> rfl

theorem fromStorageStep_ok_some (doc : StorageDict) (g : AssetGraph) (b : Bool)
    (m : Finmap (fun _ : AssetKey => PartitionsSubset)) (k : AssetKey)
    {v : PartitionsSubset} (h : deserEntry doc g k = some v) :
    fromStorageStep doc g b m k = .ok (m.insert k v) := by
  unfold fromStorageStep
  rw [h]

theorem fromStorageStep_false_none (doc : StorageDict) (g : AssetGraph)
    (m : Finmap (fun _ : AssetKey => PartitionsSubset)) (k : AssetKey)
    (h : deserEntry doc g k = none) :
    fromStorageStep doc g false m k = .error .definitionChanged := by
  unfold fromStorageStep
  rw [h]
  rfl

theorem deserEntry_none_of_not_mem (doc : StorageDict) (g : AssetGraph)
    (k : AssetKey) (hk : k ∉ g.all_asset_keys) : deserEntry doc g k = none := by
  unfold deserEntry
  cases doc.partitions_subsets_by_asset_key.lookup k with
  | none => rfl
  | some payload =>
    rw [Option.some_bind, if_neg hk]

theorem foldl_fromStorageUpdate_lookup_none (doc : StorageDict) (g : AssetGraph)
    (X : AssetKey) (hX : deserEntry doc g X = none) :
    ∀ (L : List AssetKey) (m : Finmap (fun _ : AssetKey => PartitionsSubset)),
      Finmap.lookup X (L.foldl (fromStorageUpdate doc g) m) = Finmap.lookup X m := by
  intro L
  induction L with
  | nil => intro m; rfl
  | cons k t ih =>
    intro m
    simp only [List.foldl_cons]
    rw [ih]
    unfold fromStorageUpdate
    by_cases hk : k = X
    · subst hk
      rw [hX]
    · cases hd : deserEntry doc g k with
      | none => rfl
      | some v => exact Finmap.lookup_insert_of_ne _ (fun he => hk he.symm)

/-- C2: if a stored document has a partitioned entry for an asset key
absent from the current graph, then reading with `allow_partial = true`
succeeds and omits that key, reading with `allow_partial = false` raises
`DefinitionChanged`, and `can_deserialize` returns `false`. -/
theorem drift_unknown_asset_behavior (doc : StorageDict) (g : AssetGraph)
    (X : AssetKey) (payload : List PartitionKey)
    (hX : doc.partitions_subsets_by_asset_key.lookup X = some payload)
    (hXg : X ∉ g.all_asset_keys) :
    (∃ r, AssetGraphSubset.from_storage_dict doc g true = .ok r ∧
        r.partitions_subsets_by_asset_key.lookup X = none ∧
        X ∉ r.non_partitioned_asset_keys) ∧
      AssetGraphSubset.from_storage_dict doc g false = .error .definitionChanged ∧
      AssetGraphSubset.can_deserialize doc g = false := by
  have hde : deserEntry doc g X = none := deserEntry_none_of_not_mem doc g X hXg
  have hXkeys : X ∈ doc.partitions_subsets_by_asset_key.keys :=
    Finmap.mem_keys.mpr (Finmap.mem_iff.mpr ⟨payload, hX⟩)
  have hXL : X ∈ sortKeys doc.partitions_subsets_by_asset_key.keys :=
    mem_sortKeys.mpr hXkeys
  refine ⟨?_, ?_, ?_⟩
  · have hfold := exceptFoldlM_ok_of_pure (fromStorageStep doc g true)
      (fromStorageUpdate doc g) (sortKeys doc.partitions_subsets_by_asset_key.keys)
      (fun b a _ => fromStorageStep_ok_true doc g b a) ∅
    refine ⟨⟨(sortKeys doc.partitions_subsets_by_asset_key.keys).foldl
        (fromStorageUpdate doc g) ∅,
      doc.non_partitioned_asset_keys.toFinset ∩ g.all_asset_keys⟩, ?_, ?_, ?_⟩
    · unfold AssetGraphSubset.from_storage_dict
      rw [hfold]
    · exact (foldl_fromStorageUpdate_lookup_none doc g X hde _ ∅).trans
        (Finmap.lookup_empty X)
    · intro hmem
      exact hXg (Finset.mem_inter.mp hmem).2
  · unfold AssetGraphSubset.from_storage_dict
    rw [exceptFoldlM_error_of_mem (fromStorageStep doc g false) .definitionChanged
      (fun k => deserEntry doc g k = none) _ X hXL hde
      (fun b a _ ha => fromStorageStep_false_none doc g b a ha)
      (fun b a _ hna => by
        cases hd : deserEntry doc g a with
        | none => exact absurd hd hna
        | some v => exact ⟨_, fromStorageStep_ok_some doc g false b a hd⟩) ∅]
  · have hpdef : g.get_partitions_def X = none := by
      cases hd : g.get_partitions_def X with
      | none => rfl
      | some d =>
        exact absurd
          (g.defs_known (Finmap.mem_keys.mpr (Finmap.mem_iff.mpr ⟨d, hd⟩))) hXg
    unfold AssetGraphSubset.can_deserialize
    cases hall : (sortKeys doc.partitions_subsets_by_asset_key.keys).all fun k =>
        match doc.partitions_subsets_by_asset_key.lookup k,
            g.get_partitions_def k with
        | some payload, some d =>
          d.can_deserialize_subset payload
            (doc.serializable_partitions_def_ids_by_asset_key.lookup k)
            (doc.partitions_def_class_names_by_asset_key.lookup k)
        | _, _ => false with
    | false => rfl
    | true =>
      have hx := List.all_eq_true.mp hall X hXL
      rw [hX, hpdef] at hx
      exact Bool.noConfusion hx

theorem drift_unknown_asset_behavior_witness :
    (∃ r, AssetGraphSubset.from_storage_dict
          ⟨finmapOfKeys [0] fun _ => [5], ∅, ∅, []⟩ ⟨∅, ∅, by decide⟩ true = .ok r ∧
        r.partitions_subsets_by_asset_key.lookup 0 = none ∧
        0 ∉ r.non_partitioned_asset_keys) ∧
      AssetGraphSubset.from_storage_dict
          ⟨finmapOfKeys [0] fun _ => [5], ∅, ∅, []⟩ ⟨∅, ∅, by decide⟩ false =
        .error .definitionChanged ∧
      AssetGraphSubset.can_deserialize
          ⟨finmapOfKeys [0] fun _ => [5], ∅, ∅, []⟩ ⟨∅, ∅, by decide⟩ = false :=
  drift_unknown_asset_behavior ⟨finmapOfKeys [0] fun _ => [5], ∅, ∅, []⟩
    ⟨∅, ∅, by decide⟩ 0 [5] (by decide) (by decide)

/-- C8: the stored non-partitioned identifiers are intersected with the
current graph's identifier universe: under `allow_partial = true` the
read never raises, and for both modes any successful read's
non-partitioned set is exactly the stored list intersected with the
universe, so stored identifiers unknown to the graph are absent. -/
theorem non_partitioned_intersected_with_universe (doc : StorageDict)
    (g : AssetGraph) :
    (∃ r, AssetGraphSubset.from_storage_dict doc g true = .ok r) ∧
      ∀ (b : Bool) (r : AssetGraphSubset),
        AssetGraphSubset.from_storage_dict doc g b = .ok r →
          r.non_partitioned_asset_keys =
              doc.non_partitioned_asset_keys.toFinset ∩ g.all_asset_keys ∧
            ∀ k, k ∉ g.all_asset_keys → k ∉ r.non_partitioned_asset_keys := by
  constructor
  · have hfold := exceptFoldlM_ok_of_pure (fromStorageStep doc g true)
      (fromStorageUpdate doc g) (sortKeys doc.partitions_subsets_by_asset_key.keys)
      (fun b a _ => fromStorageStep_ok_true doc g b a) ∅
    refine ⟨⟨(sortKeys doc.partitions_subsets_by_asset_key.keys).foldl
        (fromStorageUpdate doc g) ∅,
      doc.non_partitioned_asset_keys.toFinset ∩ g.all_asset_keys⟩, ?_⟩
    unfold AssetGraphSubset.from_storage_dict
    rw [hfold]
  · intro b r hr
    unfold AssetGraphSubset.from_storage_dict at hr
    cases hfold : (sortKeys doc.partitions_subsets_by_asset_key.keys).foldlM
        (fromStorageStep doc g b) ∅ with
    | error e =>
      rw [hfold] at hr
      exact Except.noConfusion hr
    | ok m =>
      rw [hfold] at hr
      injection hr with hr'
      constructor
      · rw [← hr']
      · intro k hk hmem
        rw [← hr'] at hmem
        exact hk (Finset.mem_inter.mp hmem).2

theorem non_partitioned_intersected_with_universe_witness :
    (∃ r, AssetGraphSubset.from_storage_dict ⟨∅, ∅, ∅, [0, 1]⟩
        ⟨{1}, ∅, by decide⟩ true = .ok r) ∧
      ∀ (b : Bool) (r : AssetGraphSubset),
        AssetGraphSubset.from_storage_dict ⟨∅, ∅, ∅, [0, 1]⟩
            ⟨{1}, ∅, by decide⟩ b = .ok r →
          r.non_partitioned_asset_keys =
              ([0, 1] : List AssetKey).toFinset ∩ {1} ∧
            ∀ k, k ∉ ({1} : Finset AssetKey) → k ∉ r.non_partitioned_asset_keys :=
  non_partitioned_intersected_with_universe ⟨∅, ∅, ∅, [0, 1]⟩ ⟨{1}, ∅, by decide⟩

theorem keys_finmapOfKeys {β : Type} (ks : List AssetKey) (f : AssetKey → β) :
    (finmapOfKeys ks f).keys = ks.toFinset := by
  apply Finset.ext
  intro a
  rw [Finmap.mem_keys, Finmap.mem_iff, List.mem_toFinset]
  constructor
  · rintro ⟨v, hv⟩
    rw [lookup_finmapOfKeys] at hv
    by_cases ha : a ∈ ks
    · exact ha
    · rw [if_neg ha] at hv
      exact Option.noConfusion hv
  · intro ha
    exact ⟨f a, by rw [lookup_finmapOfKeys, if_pos ha]⟩

theorem deserEntry_toStorageDoc (s : AssetGraphSubset) (g : AssetGraph)
    (h1 : ∀ k ∈ s.partitions_subsets_by_asset_key.keys, (g.get_partitions_def k).isSome)
    (k : AssetKey) (hk : k ∈ sortKeys s.partitions_subsets_by_asset_key.keys) :
    deserEntry (toStorageDoc s g) g k =
      some ((s.partitions_subsets_by_asset_key.lookup k).getD ∅) := by
  obtain ⟨d, hd⟩ := Option.isSome_iff_exists.mp (h1 k (mem_sortKeys.mp hk))
  have hall : k ∈ g.all_asset_keys :=
    g.defs_known (Finmap.mem_keys.mpr (Finmap.mem_iff.mpr ⟨d, hd⟩))
  unfold deserEntry
  simp only [toStorageDoc]
  rw [lookup_finmapOfKeys, if_pos hk, Option.some_bind, if_pos hall, hd,
    Option.some_bind]
  simp [lookup_finmapOfKeys, hk, hd, PartitionsDef.can_deserialize_subset,
    PartitionsDef.deserialize_subset, serializeSubset, sortKeys_toFinset]

/-- C3 (amended): for every subset whose partitioned keys all have a
partitioning definition in the graph used at write time and whose
non-partitioned keys are all in that graph's identifier universe,
writing and reading back against the same graph reconstructs an equal
value. -/
theorem storage_roundtrip (s : AssetGraphSubset) (g : AssetGraph)
    (h1 : ∀ k ∈ s.partitions_subsets_by_asset_key.keys, (g.get_partitions_def k).isSome)
    (h2 : s.non_partitioned_asset_keys ⊆ g.all_asset_keys) :
    ∃ doc, s.to_storage_dict () g = some doc ∧
      AssetGraphSubset.from_storage_dict doc g false = .ok s := by
  refine ⟨toStorageDoc s g, ?_, ?_⟩
  · unfold AssetGraphSubset.to_storage_dict
    rw [if_pos h1]
  · have hkeys : sortKeys (toStorageDoc s g).partitions_subsets_by_asset_key.keys =
        sortKeys s.partitions_subsets_by_asset_key.keys := by
      simp only [toStorageDoc]
      rw [keys_finmapOfKeys, sortKeys_toFinset]
    have hsteps : ∀ (b : Finmap (fun _ : AssetKey => PartitionsSubset)) (k : AssetKey),
        k ∈ sortKeys s.partitions_subsets_by_asset_key.keys →
        fromStorageStep (toStorageDoc s g) g false b k =
          .ok (fromStorageUpdate (toStorageDoc s g) g b k) := by
      intro b k hk
      rw [fromStorageStep_ok_some _ _ _ _ _ (deserEntry_toStorageDoc s g h1 k hk)]
      unfold fromStorageUpdate
      rw [deserEntry_toStorageDoc s g h1 k hk]
    have hfold := exceptFoldlM_ok_of_pure (fromStorageStep (toStorageDoc s g) g false)
      (fromStorageUpdate (toStorageDoc s g) g)
      (sortKeys s.partitions_subsets_by_asset_key.keys) hsteps ∅
    have hupdate : List.foldl (fromStorageUpdate (toStorageDoc s g) g) ∅
        (sortKeys s.partitions_subsets_by_asset_key.keys) =
        List.foldl
          (fun m k => m.insert k ((s.partitions_subsets_by_asset_key.lookup k).getD ∅))
          ∅ (sortKeys s.partitions_subsets_by_asset_key.keys) :=
      List.foldl_ext _ _ ∅ (fun m k hk => by
        unfold fromStorageUpdate
        rw [deserEntry_toStorageDoc s g h1 k hk])
    have hmap : List.foldl
        (fun m k => m.insert k ((s.partitions_subsets_by_asset_key.lookup k).getD ∅))
        ∅ (sortKeys s.partitions_subsets_by_asset_key.keys) =
        s.partitions_subsets_by_asset_key := by
      apply Finmap.ext_lookup
      intro a
      rw [show List.foldl
          (fun m k => m.insert k ((s.partitions_subsets_by_asset_key.lookup k).getD ∅))
          ∅ (sortKeys s.partitions_subsets_by_asset_key.keys) =
          finmapOfKeys (sortKeys s.partitions_subsets_by_asset_key.keys)
            (fun k => (s.partitions_subsets_by_asset_key.lookup k).getD ∅) from rfl]
      rw [lookup_finmapOfKeys]
      by_cases ha : a ∈ sortKeys s.partitions_subsets_by_asset_key.keys
      · rw [if_pos ha]
        obtain ⟨v, hv⟩ := Finmap.mem_iff.mp (Finmap.mem_keys.mp (mem_sortKeys.mp ha))
        rw [hv]
        rfl
      · rw [if_neg ha]
        cases hv : s.partitions_subsets_by_asset_key.lookup a with
        | none => rfl
        | some v =>
          exact absurd
            (mem_sortKeys.mpr (Finmap.mem_keys.mpr (Finmap.mem_iff.mpr ⟨v, hv⟩))) ha
    have hnp : (toStorageDoc s g).non_partitioned_asset_keys.toFinset ∩
        g.all_asset_keys = s.non_partitioned_asset_keys := by
      simp only [toStorageDoc]
      rw [sortKeys_toFinset]
      exact Finset.inter_eq_left.mpr h2
    unfold AssetGraphSubset.from_storage_dict
    rw [hkeys, hfold, hupdate, hmap, hnp]

theorem storage_roundtrip_witness :
    ∃ doc, AssetGraphSubset.to_storage_dict
        ⟨finmapOfKeys [0] fun _ => {5}, {1}⟩ ()
        ⟨{0, 1}, finmapOfKeys [0] fun _ => ⟨5, 7⟩, by decide⟩ = some doc ∧
      AssetGraphSubset.from_storage_dict doc
          ⟨{0, 1}, finmapOfKeys [0] fun _ => ⟨5, 7⟩, by decide⟩ false =
        .ok ⟨finmapOfKeys [0] fun _ => {5}, {1}⟩ :=
  storage_roundtrip ⟨finmapOfKeys [0] fun _ => {5}, {1}⟩
    ⟨{0, 1}, finmapOfKeys [0] fun _ => ⟨5, 7⟩, by decide⟩ (by decide) (by decide)

/-- C3 (counterexample): the subset `s = {0}` (one non-partitioned key)
with a graph whose identifier universe is empty serializes successfully
(zero partitioned entries survive trivially), but reading the document
back drops the unknown non-partitioned key, so the round trip does not
reconstruct `s`. -/
theorem storage_roundtrip_drops_unknown_non_partitioned :
    AssetGraphSubset.to_storage_dict ⟨∅, {0}⟩ () ⟨∅, ∅, by decide⟩ =
        some ⟨∅, ∅, ∅, [0]⟩ ∧
      AssetGraphSubset.from_storage_dict ⟨∅, ∅, ∅, [0]⟩ ⟨∅, ∅, by decide⟩ false =
        .ok ⟨∅, ∅⟩ ∧
      (AssetGraphSubset.mk ∅ ∅ ≠ ⟨∅, {0}⟩) := by
  refine ⟨by decide, by decide, by decide⟩
